import Mathlib

/-!
Verification of the binned integrator `RooBinIntegrator`
(src/roofit/roofitcore/src/RooBinIntegrator.cxx) against its
natural-language specification.

Doubles are modelled as `RDouble`: a finite rational, one of the two
infinities, or NaN, with IEEE-754-style arithmetic and comparison.  The
integrand contract (`RooAbsFunc`) is a record of the capabilities the
integrator consumes.  The integrator's mutable fields (`_xmin`, `_xmax`,
`_binb`, `_useIntegrandLimits`, `_numBins`) form `IntegratorState`;
member functions that mutate state are modelled as functions returning a
new state.  The scratch coordinate buffer `_x` is not modelled: it only
carries the midpoint coordinates of the current bin into the integrand
call, which is modelled by passing the coordinate list directly.
-/

namespace RooBin

/-- Model of an IEEE-754 double as used by the integrator: a finite
rational value, positive infinity, negative infinity, or NaN. -/
inductive RDouble where
  | fin : ℚ → RDouble
  | pinf : RDouble
  | ninf : RDouble
  | nan : RDouble
deriving DecidableEq, Repr

open RDouble

/-- IEEE negation on the double model. -/
def vneg : RDouble → RDouble
  | fin a => fin (-a)
  | pinf => ninf
  | ninf => pinf
  | nan => nan

/-- IEEE addition on the double model (`inf + (-inf) = NaN`, NaN absorbs). -/
def vadd : RDouble → RDouble → RDouble
  | fin a, fin b => fin (a + b)
  | fin _, pinf => pinf
  | fin _, ninf => ninf
  | pinf, fin _ => pinf
  | ninf, fin _ => ninf
  | pinf, pinf => pinf
  | ninf, ninf => ninf
  | pinf, ninf => nan
  | ninf, pinf => nan
  | nan, _ => nan
  | _, nan => nan

/-- IEEE subtraction on the double model. -/
def vsub (a b : RDouble) : RDouble := vadd a (vneg b)

/-- IEEE multiplication on the double model (`0 * inf = NaN`, sign rules,
NaN absorbs). -/
def vmul : RDouble → RDouble → RDouble
  | fin a, fin b => fin (a * b)
  | fin a, pinf => if 0 < a then pinf else if a < 0 then ninf else nan
  | fin a, ninf => if 0 < a then ninf else if a < 0 then pinf else nan
  | pinf, fin b => if 0 < b then pinf else if b < 0 then ninf else nan
  | ninf, fin b => if 0 < b then ninf else if b < 0 then pinf else nan
  | pinf, pinf => pinf
  | ninf, ninf => pinf
  | pinf, ninf => ninf
  | ninf, pinf => ninf
  | nan, _ => nan
  | _, nan => nan

/-- IEEE division on the double model (`x / 0` is a signed infinity or NaN,
`inf / inf = NaN`, `x / inf = 0`, NaN absorbs).  The rational model has a
single zero, taken with positive sign. -/
def vdiv : RDouble → RDouble → RDouble
  | fin a, fin b =>
      if b = 0 then (if 0 < a then pinf else if a < 0 then ninf else nan)
      else fin (a / b)
  | fin _, pinf => fin 0
  | fin _, ninf => fin 0
  | pinf, fin b => if 0 ≤ b then pinf else ninf
  | ninf, fin b => if 0 ≤ b then ninf else pinf
  | pinf, pinf => nan
  | pinf, ninf => nan
  | ninf, pinf => nan
  | ninf, ninf => nan
  | nan, _ => nan
  | _, nan => nan

/-- IEEE `<=` on the double model: any comparison involving NaN is false. -/
def vle : RDouble → RDouble → Bool
  | nan, _ => false
  | _, nan => false
  | ninf, _ => true
  | _, pinf => true
  | pinf, _ => false
  | fin _, ninf => false
  | fin a, fin b => decide (a ≤ b)

/-- Modelled from the spec: `RooNumber::isInfinite` (class `RooNumber` is
not among this repository's sources).  The spec says limit validation
fails "if either bound is non-finite", so this returns true exactly on
the non-finite values of the double model. -/
def isInfinite : RDouble → Bool
  | fin _ => false
  | _ => true

/-- C-style conversion of a double value to `Int_t`: truncation toward
zero, as performed by the cast `(Int_t) configSet.getRealValue("numBins")`. -/
def cToInt (q : ℚ) : ℤ := if 0 ≤ q then ⌊q⌋ else ⌈q⌉

/-- The integrand contract (`RooAbsFunc`) consumed by the integrator:
dimension count, per-dimension limits, optional per-dimension bin
boundaries (`none` models the null pointer returned when the integrand
has no natural binning), and evaluation at a coordinate vector. -/
structure RooAbsFunc where
  dim : ℕ
  minLimit : ℕ → RDouble
  maxLimit : ℕ → RDouble
  binBoundaries : ℕ → Option (List RDouble)
  eval : List RDouble → RDouble

/-- Modelled from the spec: the options bundle (`RooNumIntConfig` /
`RooArgSet`, not among this repository's sources) "used only to carry
`numBins: integer`" into the configured constructor; `numBins` here is
the double value that `getRealValue("numBins")` returns. -/
structure NumIntConfig where
  numBins : ℚ

/-- The integrator's state: the fields `_useIntegrandLimits`, `_numBins`,
`_xmin`, `_xmax` and the bin-boundary table `_binb` of
`RooBinIntegrator`. -/
structure IntegratorState where
  useIntegrandLimits : Bool
  numBins : ℤ
  xmin : List RDouble
  xmax : List RDouble
  binb : List (List RDouble)
deriving DecidableEq, Repr

/-- The uniform fallback binning synthesized when the integrand provides
no boundaries: the values `_xmin[i] + j*(_xmax[i]-_xmin[i])/_numBins` for
`j = 0 .. _numBins` (the loop `for (Int_t j=0 ; j<=_numBins ; j++)` runs
`numBins+1` times when `numBins ≥ 0` and not at all otherwise; with
`numBins = 0` the division is an IEEE `0/0`). -/
def uniformRow (nb : ℤ) (xmi xma : RDouble) : List RDouble :=
  (List.range (nb + 1).toNat).map (fun j : ℕ =>
    vadd xmi (vdiv (vmul (fin (j : ℚ)) (vsub xma xmi)) (fin (nb : ℚ))))

/-- One row of the bin table, as built by the constructor loop body: the
integrand's boundary list if present (the constructor copies the returned
list verbatim into `_binb`), otherwise the synthesized uniform binning. -/
def binRow (f : RooAbsFunc) (nb : ℤ) (i : ℕ) : List RDouble :=
  match f.binBoundaries i with
  | some bs => bs
  | none => uniformRow nb (f.minLimit i) (f.maxLimit i)

/-- Model of `RooBinIntegrator::checkLimits`: when `_useIntegrandLimits` is set,
first re-pull every dimension's `_xmin[i]`/`_xmax[i]` from the integrand
(the code resizes both vectors to the dimension count and assigns each
entry); then return false as soon as some dimension has
`_xmax[i] <= _xmin[i]` or a bound for which `RooNumber::isInfinite`
holds, and true otherwise.  The early returns have no side effect beyond
a diagnostic, so the loop is modelled by `List.all`. -/
def checkLimits (f : RooAbsFunc) (st : IntegratorState) :
    IntegratorState × Bool :=
  let st1 := if st.useIntegrandLimits then
      { st with xmin := (List.range f.dim).map (fun i => f.minLimit i),
                xmax := (List.range f.dim).map (fun i => f.maxLimit i) }
    else st
  (st1, (List.range f.dim).all (fun i =>
    !(vle (st1.xmax.getD i (fin 0)) (st1.xmin.getD i (fin 0)))
    && !(isInfinite (st1.xmin.getD i (fin 0))
          || isInfinite (st1.xmax.getD i (fin 0)))))

/-- The constructor `RooBinIntegrator(const RooAbsFunc&)`: sets
`_useIntegrandLimits = kTRUE` and `_numBins = 100`, fills `_xmin`/`_xmax`
from the integrand, builds one bin-table row per dimension (copied
boundaries or uniform fallback), then calls `checkLimits()` (whose
boolean result is discarded). -/
def construct (f : RooAbsFunc) : IntegratorState :=
  let st0 : IntegratorState :=
    { useIntegrandLimits := true
      numBins := 100
      xmin := (List.range f.dim).map (fun i => f.minLimit i)
      xmax := (List.range f.dim).map (fun i => f.maxLimit i)
      binb := (List.range f.dim).map (fun i => binRow f 100 i) }
  (checkLimits f st0).1

/-- The constructor `RooBinIntegrator(const RooAbsFunc&, const
RooNumIntConfig&)`: identical to `construct` except that `_numBins` is
the options bundle's `numBins` value cast to `Int_t`. -/
def constructConfig (f : RooAbsFunc) (cfg : NumIntConfig) :
    IntegratorState :=
  let nb : ℤ := cToInt cfg.numBins
  let st0 : IntegratorState :=
    { useIntegrandLimits := true
      numBins := nb
      xmin := (List.range f.dim).map (fun i => f.minLimit i)
      xmax := (List.range f.dim).map (fun i => f.maxLimit i)
      binb := (List.range f.dim).map (fun i => binRow f nb i) }
  (checkLimits f st0).1

/-- Model of `RooBinIntegrator::setLimits`: refused (state unchanged, `kFALSE`)
when `_useIntegrandLimits` is set; otherwise overwrite `_xmin[0]` and
`_xmax[0]` with the new values and return `checkLimits()`.  (In C++,
writing index 0 of an empty vector would be undefined; `List.set` leaves
an empty list unchanged, and the theorems about the overwrite assume at
least one stored dimension.) -/
def setLimits (newMin newMax : RDouble) (f : RooAbsFunc)
    (st : IntegratorState) : IntegratorState × Bool :=
  if st.useIntegrandLimits then (st, false)
  else
    checkLimits f
      { st with xmin := st.xmin.set 0 newMin, xmax := st.xmax.set 0 newMax }

/-- The 1D summation loop of `RooBinIntegrator::integral`, accumulating
into `init`: for `ibin < binb.size() - 1`, add
`integrand(xvec(xcenter)) * (xhi - xlo)` with
`xcenter = (xhi + xlo)/2`.  (In C++ `binb.size() - 1` is computed in
`unsigned int`, so an empty row would make the bound wrap around and the
loop read out of bounds — undefined behavior; the `ℕ` subtraction used
here instead gives an empty loop, and the theorems about `integral`
assume non-empty rows.) -/
def binSum1 (f : RooAbsFunc) (bx : List RDouble) (init : RDouble) :
    RDouble :=
  (List.range (bx.length - 1)).foldl (fun sum ibin =>
    let xhi := bx.getD (ibin + 1) (fin 0)
    let xlo := bx.getD ibin (fin 0)
    let xcenter := vdiv (vadd xhi xlo) (fin 2)
    vadd sum (vmul (f.eval [xcenter]) (vsub xhi xlo))) init

/-- The 2D summation loop of `RooBinIntegrator::integral` (dimension 0
outermost), accumulating into `init`. -/
def binSum2 (f : RooAbsFunc) (bx bY : List RDouble) (init : RDouble) :
    RDouble :=
  (List.range (bx.length - 1)).foldl (fun sum ibin1 =>
    let x1hi := bx.getD (ibin1 + 1) (fin 0)
    let x1lo := bx.getD ibin1 (fin 0)
    let x1center := vdiv (vadd x1hi x1lo) (fin 2)
    (List.range (bY.length - 1)).foldl (fun sum2 ibin2 =>
      let x2hi := bY.getD (ibin2 + 1) (fin 0)
      let x2lo := bY.getD ibin2 (fin 0)
      let x2center := vdiv (vadd x2hi x2lo) (fin 2)
      vadd sum2 (vmul (vmul (f.eval [x1center, x2center])
        (vsub x1hi x1lo)) (vsub x2hi x2lo))) sum) init

/-- The 3D summation loop of `RooBinIntegrator::integral` (dimension 0
outermost), accumulating into `init`. -/
def binSum3 (f : RooAbsFunc) (bx bY bz : List RDouble) (init : RDouble) :
    RDouble :=
  (List.range (bx.length - 1)).foldl (fun sum ibin1 =>
    let x1hi := bx.getD (ibin1 + 1) (fin 0)
    let x1lo := bx.getD ibin1 (fin 0)
    let x1center := vdiv (vadd x1hi x1lo) (fin 2)
    (List.range (bY.length - 1)).foldl (fun sum2 ibin2 =>
      let x2hi := bY.getD (ibin2 + 1) (fin 0)
      let x2lo := bY.getD ibin2 (fin 0)
      let x2center := vdiv (vadd x2hi x2lo) (fin 2)
      (List.range (bz.length - 1)).foldl (fun sum3 ibin3 =>
        let x3hi := bz.getD (ibin3 + 1) (fin 0)
        let x3lo := bz.getD ibin3 (fin 0)
        let x3center := vdiv (vadd x3hi x3lo) (fin 2)
        vadd sum3 (vmul (vmul (vmul (f.eval [x1center, x2center, x3center])
          (vsub x1hi x1lo)) (vsub x2hi x2lo)) (vsub x3hi x3lo))) sum2) sum)
    init

/-- Model of `RooBinIntegrator::integral`: `sum` starts at 0 and each of the three
dimension-specialized `if` blocks adds its bin contributions; no block
exists for dimensions outside 1–3. -/
def integral (f : RooAbsFunc) (st : IntegratorState) : RDouble :=
  let s0 : RDouble := fin 0
  let s1 := if f.dim = 1 then binSum1 f (st.binb.getD 0 []) s0 else s0
  let s2 := if f.dim = 2 then
      binSum2 f (st.binb.getD 0 []) (st.binb.getD 1 []) s1 else s1
  let s3 := if f.dim = 3 then
      binSum3 f (st.binb.getD 0 []) (st.binb.getD 1 [])
        (st.binb.getD 2 []) s2 else s2
  s3

/-- Spec-side formula: the midpoint of bin `k` of a boundary sequence,
`(boundary[k] + boundary[k+1]) / 2`. -/
def midQ (qs : List ℚ) (k : ℕ) : ℚ := (qs.getD k 0 + qs.getD (k + 1) 0) / 2

/-- Spec-side formula: the width of bin `k` of a boundary sequence,
`boundary[k+1] - boundary[k]`. -/
def widQ (qs : List ℚ) (k : ℕ) : ℚ := qs.getD (k + 1) 0 - qs.getD k 0

/-- Spec-side formula: the 1D midpoint-rule sum
`Σ over all bins of f(midpoint) × bin width`. -/
def specSum1 (g : ℚ → ℚ) (qs : List ℚ) : ℚ :=
  Finset.sum (Finset.range (qs.length - 1))
    (fun k => g (midQ qs k) * widQ qs k)

/-- Spec-side formula: the 2D midpoint-rule sum over all bin combinations
of `f(midpoints) × bin hypervolume`. -/
def specSum2 (g : ℚ → ℚ → ℚ) (qx qy : List ℚ) : ℚ :=
  Finset.sum (Finset.range (qx.length - 1)) (fun k1 =>
    Finset.sum (Finset.range (qy.length - 1)) (fun k2 =>
      g (midQ qx k1) (midQ qy k2) * (widQ qx k1 * widQ qy k2)))

/-- Spec-side formula: the 3D midpoint-rule sum over all bin combinations
of `f(midpoints) × bin hypervolume`. -/
def specSum3 (g : ℚ → ℚ → ℚ → ℚ) (qx qy qz : List ℚ) : ℚ :=
  Finset.sum (Finset.range (qx.length - 1)) (fun k1 =>
    Finset.sum (Finset.range (qy.length - 1)) (fun k2 =>
      Finset.sum (Finset.range (qz.length - 1)) (fun k3 =>
        g (midQ qx k1) (midQ qy k2) (midQ qz k3)
          * (widQ qx k1 * (widQ qy k2 * widQ qz k3)))))

/-- Spec-side formula: the synthesized uniform boundary sequence, the
`j`-th boundary being `min + j*(max-min)/numBins` for `j = 0..numBins`. -/
def qsU (n : ℕ) (a b : ℚ) : List ℚ :=
  (List.range (n + 1)).map (fun j : ℕ => a + (j : ℚ) * (b - a) / n)

/-- Concrete 1D integrand used in witnesses: domain `[0,1]`, no natural
binning, constantly 1. -/
def wF1 : RooAbsFunc :=
  ⟨1, fun _ => fin 0, fun _ => fin 1, fun _ => none, fun _ => fin 1⟩

/-- Concrete 4D integrand used in witnesses: domain `[0,1]` per dimension,
no natural binning, constantly 1. -/
def wF4 : RooAbsFunc :=
  ⟨4, fun _ => fin 0, fun _ => fin 1, fun _ => none, fun _ => fin 1⟩

/-- Concrete 1D integrand supplying the explicit boundaries `[0,1,3,7]`,
constantly 1. -/
def wFbb : RooAbsFunc :=
  ⟨1, fun _ => fin 0, fun _ => fin 7,
    fun _ => some [fin 0, fin 1, fin 3, fin 7], fun _ => fin 1⟩

/-- Concrete 1D integrand whose `binBoundaries` result is present but
empty. -/
def wFempty : RooAbsFunc :=
  ⟨1, fun _ => fin 0, fun _ => fin 1, fun _ => some [], fun _ => fin 0⟩

/-- Concrete integrator state with externally supplied limits
(`useIntegrandLimits = false`), one dimension, domain `[0,1]`. -/
def stExt : IntegratorState :=
  ⟨false, 100, [fin 0], [fin 1], [[fin 0, fin 1]]⟩

/-- Concrete integrator state with externally supplied limits whose
stored range is inverted (`min = 1 > max = 0`). -/
def stBad : IntegratorState :=
  ⟨false, 100, [fin 1], [fin 0], [[fin 0, fin 1]]⟩

/-- Concrete integrator state used by the C1 witness: a single dimension
with the two boundaries `[0,1]`. -/
def stC1 : IntegratorState :=
  ⟨true, 0, [fin 0], [fin 1], [[fin 0, fin 1]]⟩

/-- Concrete 1D integrand used in witnesses: domain `[0,1]`, no natural
binning, constantly 2. -/
def wF1c : RooAbsFunc :=
  ⟨1, fun _ => fin 0, fun _ => fin 1, fun _ => none, fun _ => fin 2⟩

/-! ### Helper lemmas: transport of finite-double arithmetic to `ℚ` -/

theorem vadd_fin_fin (a b : ℚ) : vadd (fin a) (fin b) = fin (a + b) := rfl

theorem vsub_fin_fin (a b : ℚ) : vsub (fin a) (fin b) = fin (a - b) := by
  show vadd (fin a) (vneg (fin b)) = fin (a - b)
  rw [vneg, vadd_fin_fin, sub_eq_add_neg]

theorem vmul_fin_fin (a b : ℚ) : vmul (fin a) (fin b) = fin (a * b) := rfl

theorem vdiv_fin_fin (a b : ℚ) (hb : b ≠ 0) :
    vdiv (fin a) (fin b) = fin (a / b) := by
  unfold vdiv
  simp [hb]

theorem getD_map_fin (qs : List ℚ) (i : ℕ) (d : ℚ) :
    (qs.map fin).getD i (fin d) = fin (qs.getD i d) := by
  induction qs generalizing i with
  | nil => simp
  | cons x xs ih => cases i <;> simp [ih]

theorem getD_map_row (rows : List (List ℚ)) (i : ℕ) :
    ((rows.map (fun r => r.map fin)).getD i []) = (rows.getD i []).map fin := by
  induction rows generalizing i with
  | nil => simp
  | cons r rs ih =>
      cases i with
      | zero => simp
      | succ n =>
          simp only [List.map_cons, List.getD_cons_succ]
          exact ih n

theorem getD_map_range (G : ℕ → List RDouble) (d : ℕ) (i : ℕ) (hi : i < d) :
    (((List.range d).map G).getD i []) = G i := by
  rw [List.getD_eq_getElem?_getD, List.getElem?_map, List.getElem?_range hi]
  rfl

theorem foldl_fin_of_step (F : RDouble → ℕ → RDouble) (t : ℕ → ℚ) :
    ∀ n : ℕ, (∀ i, i < n → ∀ q : ℚ, F (fin q) i = fin (q + t i)) →
      ∀ q0 : ℚ, (List.range n).foldl F (fin q0)
        = fin (q0 + Finset.sum (Finset.range n) t) := by
  intro n
  induction n with
  | zero => intro _ q0; simp
  | succ m ih =>
      intro h q0
      rw [List.range_succ, List.foldl_append, List.foldl_cons, List.foldl_nil]
      rw [ih (fun i hi q => h i (Nat.lt_succ_of_lt hi) q) q0]
      rw [h m (Nat.lt_succ_self m)]
      rw [Finset.sum_range_succ, add_assoc]

theorem binSum1_fin (f : RooAbsFunc) (qs : List ℚ) (g1 : ℚ → ℚ)
    (he : ∀ x : ℚ, f.eval [fin x] = fin (g1 x)) (q0 : ℚ) :
    binSum1 f (qs.map fin) (fin q0) = fin (q0 + specSum1 g1 qs) := by
  unfold binSum1 specSum1
  rw [List.length_map]
  refine foldl_fin_of_step _ _ (qs.length - 1) ?_ q0
  intro i hi q
  dsimp only
  simp only [getD_map_fin, vadd_fin_fin, vsub_fin_fin]
  rw [vdiv_fin_fin _ _ (by norm_num : (2 : ℚ) ≠ 0)]
  rw [he, vmul_fin_fin, vadd_fin_fin]
  unfold midQ widQ
  rw [add_comm (qs.getD (i + 1) 0) (qs.getD i 0)]

theorem binSum2_fin (f : RooAbsFunc) (qx qy : List ℚ) (g2 : ℚ → ℚ → ℚ)
    (he : ∀ x y : ℚ, f.eval [fin x, fin y] = fin (g2 x y)) (q0 : ℚ) :
    binSum2 f (qx.map fin) (qy.map fin) (fin q0)
      = fin (q0 + specSum2 g2 qx qy) := by
  unfold binSum2 specSum2
  simp only [List.length_map]
  refine foldl_fin_of_step _ _ (qx.length - 1) ?_ q0
  intro i1 hi1 q
  dsimp only
  refine foldl_fin_of_step _ _ (qy.length - 1) ?_ q
  intro i2 hi2 q'
  dsimp only
  simp only [getD_map_fin, vadd_fin_fin, vsub_fin_fin]
  rw [vdiv_fin_fin _ _ (by norm_num : (2 : ℚ) ≠ 0),
      vdiv_fin_fin _ _ (by norm_num : (2 : ℚ) ≠ 0)]
  rw [he, vmul_fin_fin, vmul_fin_fin, vadd_fin_fin]
  unfold midQ widQ
  rw [add_comm (qx.getD (i1 + 1) 0) (qx.getD i1 0),
      add_comm (qy.getD (i2 + 1) 0) (qy.getD i2 0)]
  exact congrArg fin (by ring)

theorem binSum3_fin (f : RooAbsFunc) (qx qy qz : List ℚ)
    (g3 : ℚ → ℚ → ℚ → ℚ)
    (he : ∀ x y z : ℚ, f.eval [fin x, fin y, fin z] = fin (g3 x y z))
    (q0 : ℚ) :
    binSum3 f (qx.map fin) (qy.map fin) (qz.map fin) (fin q0)
      = fin (q0 + specSum3 g3 qx qy qz) := by
  unfold binSum3 specSum3
  simp only [List.length_map]
  refine foldl_fin_of_step _ _ (qx.length - 1) ?_ q0
  intro i1 hi1 q
  dsimp only
  refine foldl_fin_of_step _ _ (qy.length - 1) ?_ q
  intro i2 hi2 q'
  dsimp only
  refine foldl_fin_of_step _ _ (qz.length - 1) ?_ q'
  intro i3 hi3 q''
  dsimp only
  simp only [getD_map_fin, vadd_fin_fin, vsub_fin_fin]
  rw [vdiv_fin_fin _ _ (by norm_num : (2 : ℚ) ≠ 0),
      vdiv_fin_fin _ _ (by norm_num : (2 : ℚ) ≠ 0),
      vdiv_fin_fin _ _ (by norm_num : (2 : ℚ) ≠ 0)]
  rw [he, vmul_fin_fin, vmul_fin_fin, vmul_fin_fin, vadd_fin_fin]
  unfold midQ widQ
  rw [add_comm (qx.getD (i1 + 1) 0) (qx.getD i1 0),
      add_comm (qy.getD (i2 + 1) 0) (qy.getD i2 0),
      add_comm (qz.getD (i3 + 1) 0) (qz.getD i3 0)]
  exact congrArg fin (by ring)

/-! ### Helper lemmas: telescoping sums and the uniform binning -/

theorem sum_widQ (qs : List ℚ) :
    Finset.sum (Finset.range (qs.length - 1)) (fun k => widQ qs k)
      = qs.getD (qs.length - 1) 0 - qs.getD 0 0 := by
  unfold widQ
  exact Finset.sum_range_sub (fun k => qs.getD k 0) (qs.length - 1)

theorem sum_const_mul_widQ (c : ℚ) (qs : List ℚ) :
    Finset.sum (Finset.range (qs.length - 1)) (fun k => c * widQ qs k)
      = c * (qs.getD (qs.length - 1) 0 - qs.getD 0 0) := by
  rw [← Finset.mul_sum (Finset.range (qs.length - 1))
      (fun k => widQ qs k) c, sum_widQ]

theorem specSum1_const (c : ℚ) (qs : List ℚ) :
    specSum1 (fun _ => c) qs
      = c * (qs.getD (qs.length - 1) 0 - qs.getD 0 0) := by
  unfold specSum1
  exact sum_const_mul_widQ c qs

theorem specSum2_const (c : ℚ) (qx qy : List ℚ) :
    specSum2 (fun _ _ => c) qx qy
      = c * ((qx.getD (qx.length - 1) 0 - qx.getD 0 0)
          * (qy.getD (qy.length - 1) 0 - qy.getD 0 0)) := by
  unfold specSum2
  have hin : ∀ k1 : ℕ,
      Finset.sum (Finset.range (qy.length - 1))
        (fun k2 => c * (widQ qx k1 * widQ qy k2))
      = (c * (qy.getD (qy.length - 1) 0 - qy.getD 0 0)) * widQ qx k1 := by
    intro k1
    have h1 : (fun k2 => c * (widQ qx k1 * widQ qy k2))
        = fun k2 => (c * widQ qx k1) * widQ qy k2 :=
      funext (fun k2 => by ring)
    rw [h1, sum_const_mul_widQ (c * widQ qx k1) qy]
    ring
  calc Finset.sum (Finset.range (qx.length - 1)) (fun k1 =>
        Finset.sum (Finset.range (qy.length - 1))
          (fun k2 => c * (widQ qx k1 * widQ qy k2)))
      = Finset.sum (Finset.range (qx.length - 1)) (fun k1 =>
          (c * (qy.getD (qy.length - 1) 0 - qy.getD 0 0)) * widQ qx k1) :=
        Finset.sum_congr rfl (fun k1 _ => hin k1)
    _ = (c * (qy.getD (qy.length - 1) 0 - qy.getD 0 0))
          * (qx.getD (qx.length - 1) 0 - qx.getD 0 0) :=
        sum_const_mul_widQ _ qx
    _ = c * ((qx.getD (qx.length - 1) 0 - qx.getD 0 0)
          * (qy.getD (qy.length - 1) 0 - qy.getD 0 0)) := by ring

theorem specSum3_const (c : ℚ) (qx qy qz : List ℚ) :
    specSum3 (fun _ _ _ => c) qx qy qz
      = c * ((qx.getD (qx.length - 1) 0 - qx.getD 0 0)
          * ((qy.getD (qy.length - 1) 0 - qy.getD 0 0)
            * (qz.getD (qz.length - 1) 0 - qz.getD 0 0))) := by
  unfold specSum3
  have hz : ∀ k1 k2 : ℕ,
      Finset.sum (Finset.range (qz.length - 1))
        (fun k3 => c * (widQ qx k1 * (widQ qy k2 * widQ qz k3)))
      = ((c * (qz.getD (qz.length - 1) 0 - qz.getD 0 0)) * widQ qx k1)
          * widQ qy k2 := by
    intro k1 k2
    have h1 : (fun k3 => c * (widQ qx k1 * (widQ qy k2 * widQ qz k3)))
        = fun k3 => (c * (widQ qx k1 * widQ qy k2)) * widQ qz k3 :=
      funext (fun k3 => by ring)
    rw [h1, sum_const_mul_widQ (c * (widQ qx k1 * widQ qy k2)) qz]
    ring
  have hy : ∀ k1 : ℕ,
      Finset.sum (Finset.range (qy.length - 1)) (fun k2 =>
        Finset.sum (Finset.range (qz.length - 1))
          (fun k3 => c * (widQ qx k1 * (widQ qy k2 * widQ qz k3))))
      = ((c * (qz.getD (qz.length - 1) 0 - qz.getD 0 0))
          * (qy.getD (qy.length - 1) 0 - qy.getD 0 0)) * widQ qx k1 := by
    intro k1
    calc Finset.sum (Finset.range (qy.length - 1)) (fun k2 =>
          Finset.sum (Finset.range (qz.length - 1))
            (fun k3 => c * (widQ qx k1 * (widQ qy k2 * widQ qz k3))))
        = Finset.sum (Finset.range (qy.length - 1)) (fun k2 =>
            ((c * (qz.getD (qz.length - 1) 0 - qz.getD 0 0)) * widQ qx k1)
              * widQ qy k2) :=
          Finset.sum_congr rfl (fun k2 _ => hz k1 k2)
      _ = ((c * (qz.getD (qz.length - 1) 0 - qz.getD 0 0)) * widQ qx k1)
            * (qy.getD (qy.length - 1) 0 - qy.getD 0 0) :=
          sum_const_mul_widQ _ qy
      _ = ((c * (qz.getD (qz.length - 1) 0 - qz.getD 0 0))
            * (qy.getD (qy.length - 1) 0 - qy.getD 0 0)) * widQ qx k1 := by
          ring
  calc Finset.sum (Finset.range (qx.length - 1)) (fun k1 =>
        Finset.sum (Finset.range (qy.length - 1)) (fun k2 =>
          Finset.sum (Finset.range (qz.length - 1))
            (fun k3 => c * (widQ qx k1 * (widQ qy k2 * widQ qz k3)))))
      = Finset.sum (Finset.range (qx.length - 1)) (fun k1 =>
          ((c * (qz.getD (qz.length - 1) 0 - qz.getD 0 0))
            * (qy.getD (qy.length - 1) 0 - qy.getD 0 0)) * widQ qx k1) :=
        Finset.sum_congr rfl (fun k1 _ => hy k1)
    _ = ((c * (qz.getD (qz.length - 1) 0 - qz.getD 0 0))
          * (qy.getD (qy.length - 1) 0 - qy.getD 0 0))
          * (qx.getD (qx.length - 1) 0 - qx.getD 0 0) :=
        sum_const_mul_widQ _ qx
    _ = c * ((qx.getD (qx.length - 1) 0 - qx.getD 0 0)
          * ((qy.getD (qy.length - 1) 0 - qy.getD 0 0)
            * (qz.getD (qz.length - 1) 0 - qz.getD 0 0))) := by ring

theorem qsU_length (n : ℕ) (a b : ℚ) : (qsU n a b).length = n + 1 := by
  unfold qsU
  rw [List.length_map, List.length_range]

theorem qsU_getD (n : ℕ) (a b : ℚ) (j : ℕ) (hj : j < n + 1) :
    (qsU n a b).getD j 0 = a + (j : ℚ) * (b - a) / n := by
  unfold qsU
  rw [List.getD_eq_getElem?_getD, List.getElem?_map,
      List.getElem?_range (by omega : j < n + 1)]
  rfl

theorem qsU_first (n : ℕ) (a b : ℚ) : (qsU n a b).getD 0 0 = a := by
  rw [qsU_getD n a b 0 (by omega)]
  norm_num

theorem qsU_last (n : ℕ) (hn : 1 ≤ n) (a b : ℚ) :
    (qsU n a b).getD n 0 = b := by
  rw [qsU_getD n a b n (by omega)]
  have hne : (n : ℚ) ≠ 0 := Nat.cast_ne_zero.mpr (by omega)
  field_simp

theorem uniformRow_fin (n : ℕ) (hn : 1 ≤ n) (a b : ℚ) :
    uniformRow (n : ℤ) (fin a) (fin b) = (qsU n a b).map fin := by
  unfold uniformRow qsU
  have h1 : ((n : ℤ) + 1).toNat = n + 1 := by omega
  rw [h1, List.map_map]
  refine List.map_congr_left (fun j hj => ?_)
  have hne : (n : ℚ) ≠ 0 := Nat.cast_ne_zero.mpr (by omega)
  rw [Function.comp_apply, vsub_fin_fin, vmul_fin_fin]
  rw [show ((n : ℤ) : ℚ) = (n : ℚ) by push_cast; rfl]
  rw [vdiv_fin_fin _ _ hne, vadd_fin_fin]

/-! ### Helper lemmas: constructors, `checkLimits`, `cToInt` -/

theorem checkLimits_fst_binb (f : RooAbsFunc) (st : IntegratorState) :
    (checkLimits f st).1.binb = st.binb := by
  unfold checkLimits
  by_cases h : st.useIntegrandLimits <;> simp [h]

theorem checkLimits_fst_of_ext (f : RooAbsFunc) (st : IntegratorState)
    (h : st.useIntegrandLimits = false) : (checkLimits f st).1 = st := by
  unfold checkLimits
  simp [h]

theorem construct_binb (f : RooAbsFunc) :
    (construct f).binb = (List.range f.dim).map (fun i => binRow f 100 i) := by
  unfold construct
  rw [checkLimits_fst_binb]

theorem constructConfig_binb (f : RooAbsFunc) (cfg : NumIntConfig) :
    (constructConfig f cfg).binb
      = (List.range f.dim).map (fun i => binRow f (cToInt cfg.numBins) i) := by
  unfold constructConfig
  rw [checkLimits_fst_binb]

theorem cToInt_natCast (n : ℕ) : cToInt (n : ℚ) = (n : ℤ) := by
  unfold cToInt
  rw [if_pos (by positivity)]
  exact_mod_cast Int.floor_natCast n

theorem integral_dim1 (f : RooAbsFunc) (st : IntegratorState)
    (h : f.dim = 1) :
    integral f st = binSum1 f (st.binb.getD 0 []) (fin 0) := by
  unfold integral
  rw [h]
  norm_num

theorem integral_dim2 (f : RooAbsFunc) (st : IntegratorState)
    (h : f.dim = 2) :
    integral f st
      = binSum2 f (st.binb.getD 0 []) (st.binb.getD 1 []) (fin 0) := by
  unfold integral
  rw [h]
  norm_num

theorem integral_dim3 (f : RooAbsFunc) (st : IntegratorState)
    (h : f.dim = 3) :
    integral f st
      = binSum3 f (st.binb.getD 0 []) (st.binb.getD 1 [])
          (st.binb.getD 2 []) (fin 0) := by
  unfold integral
  rw [h]
  norm_num

/-! ### The claims -/

/-- Claim C1: for every integrand of dimension 1, 2, or 3 with a valid
(finite, one row per dimension, non-empty rows) bin-boundary table,
`integral` returns the sum over all bin combinations of the integrand at
the per-dimension bin midpoints `(boundary[k]+boundary[k+1])/2` times the
bin hypervolume (the product of `boundary[k+1]-boundary[k]` over the
dimensions), with a single loop in 1D, a nested loop with dimension 0
outermost in 2D, and a triple-nested loop in 3D. -/
theorem C1_integral_is_midpoint_sum (f : RooAbsFunc) (st : IntegratorState)
    (rows : List (List ℚ)) (g : List ℚ → ℚ)
    (hst : st.binb = rows.map (fun r => r.map fin))
    (hrows : rows.length = f.dim)
    (hne : ∀ r ∈ rows, 1 ≤ r.length)
    (he : ∀ xs : List ℚ, f.eval (xs.map fin) = fin (g xs)) :
    (f.dim = 1 →
      integral f st = fin (specSum1 (fun x => g [x]) (rows.getD 0 [])))
    ∧ (f.dim = 2 →
      integral f st = fin (specSum2 (fun x y => g [x, y])
        (rows.getD 0 []) (rows.getD 1 [])))
    ∧ (f.dim = 3 →
      integral f st = fin (specSum3 (fun x y z => g [x, y, z])
        (rows.getD 0 []) (rows.getD 1 []) (rows.getD 2 []))) := by
  refine ⟨fun h1 => ?_, fun h2 => ?_, fun h3 => ?_⟩
  · rw [integral_dim1 f st h1, hst, getD_map_row]
    rw [binSum1_fin f (rows.getD 0 []) (fun x => g [x])
        (fun x => he [x]) 0, zero_add]
  · rw [integral_dim2 f st h2, hst, getD_map_row, getD_map_row]
    rw [binSum2_fin f (rows.getD 0 []) (rows.getD 1 [])
        (fun x y => g [x, y]) (fun x y => he [x, y]) 0, zero_add]
  · rw [integral_dim3 f st h3, hst, getD_map_row, getD_map_row,
        getD_map_row]
    rw [binSum3_fin f (rows.getD 0 []) (rows.getD 1 []) (rows.getD 2 [])
        (fun x y z => g [x, y, z]) (fun x y z => he [x, y, z]) 0, zero_add]

/-- Witness for C1 at a concrete one-dimensional input: one bin `[0,1]`,
constant integrand 1, integral 1. -/
theorem C1_witness :
    stC1.binb = [[(0 : ℚ), 1]].map (fun r => r.map fin)
    ∧ integral wF1 stC1 = fin 1 := by
  refine ⟨rfl, ?_⟩
  have h := (C1_integral_is_midpoint_sum wF1 stC1 [[0, 1]] (fun _ => 1)
    rfl rfl (by decide) (fun _ => rfl)).1 rfl
  rw [h]
  norm_num [specSum1, midQ, widQ]

/-- Claim C2: for every integrand of dimension 4 or greater, `integral`
returns exactly 0, because no summation loop nest exists for those
dimensionalities. -/
theorem C2_high_dim_zero (f : RooAbsFunc) (st : IntegratorState)
    (h : 4 ≤ f.dim) : integral f st = fin 0 := by
  unfold integral
  have h1 : ¬(f.dim = 1) := by omega
  have h2 : ¬(f.dim = 2) := by omega
  have h3 : ¬(f.dim = 3) := by omega
  simp [h1, h2, h3]

/-- Witness for C2: a concrete 4-dimensional integrand. -/
theorem C2_witness : 4 ≤ wF4.dim ∧ integral wF4 stC1 = fin 0 :=
  ⟨by decide, C2_high_dim_zero wF4 stC1 (by decide)⟩

/-- Claim C3: when the integrand supplies an explicit boundary sequence
for dimension `i`, construction stores exactly that sequence as the
bin-table row (no uniform rebinning), and in the 1D case `integral` is
the midpoint-rule sum over exactly those bins. -/
theorem C3_explicit_boundaries_used (f : RooAbsFunc) (bs : List RDouble)
    (i : ℕ) (hi : i < f.dim) (hbb : f.binBoundaries i = some bs) :
    (construct f).binb.getD i [] = bs
    ∧ (∀ (qs : List ℚ) (g1 : ℚ → ℚ), f.dim = 1 → i = 0 →
        bs = qs.map fin → (∀ x : ℚ, f.eval [fin x] = fin (g1 x)) →
        integral f (construct f) = fin (specSum1 g1 qs)) := by
  constructor
  · rw [construct_binb, getD_map_range _ f.dim i hi]
    unfold binRow
    rw [hbb]
  · intro qs g1 h1 hi0 hqs he
    rw [integral_dim1 f (construct f) h1]
    have hrow : (construct f).binb.getD 0 [] = qs.map fin := by
      rw [construct_binb, getD_map_range _ f.dim 0 (by omega)]
      rw [← hi0]
      unfold binRow
      rw [hbb]
      exact hqs
    rw [hrow, binSum1_fin f qs g1 he 0, zero_add]

/-- Witness for C3: explicit boundaries `[0,1,3,7]` are stored verbatim
(three bins of widths 1, 2, 4) and the constant-1 integrand integrates
to exactly 7. -/
theorem C3_witness :
    (construct wFbb).binb.getD 0 [] = [fin 0, fin 1, fin 3, fin 7]
    ∧ integral wFbb (construct wFbb) = fin 7 := by
  have h := C3_explicit_boundaries_used wFbb [fin 0, fin 1, fin 3, fin 7]
    0 (by decide) rfl
  refine ⟨h.1, ?_⟩
  rw [h.2 [0, 1, 3, 7] (fun _ => 1) rfl rfl rfl (fun _ => rfl)]
  norm_num [specSum1, midQ, widQ, Finset.sum_range_succ]

/-- Claim C4: when the integrand supplies no boundaries for dimension
`i`, construction synthesizes exactly `numBins+1` uniformly spaced
boundaries, the `j`-th being `min + j*(max-min)/numBins`, with
`numBins = 100` in the default mode and the options-bundle value in the
configured mode. -/
theorem C4_uniform_fallback (f : RooAbsFunc) (cfg : NumIntConfig)
    (i n : ℕ) (a b : ℚ)
    (hi : i < f.dim) (hbb : f.binBoundaries i = none)
    (hmin : f.minLimit i = fin a) (hmax : f.maxLimit i = fin b)
    (hn : 1 ≤ n) (hcfg : cfg.numBins = (n : ℚ)) :
    ((construct f).binb.getD i [] = (qsU 100 a b).map fin
      ∧ ((construct f).binb.getD i []).length = 100 + 1)
    ∧ ((constructConfig f cfg).binb.getD i [] = (qsU n a b).map fin
      ∧ ((constructConfig f cfg).binb.getD i []).length = n + 1) := by
  have hrow1 : (construct f).binb.getD i [] = (qsU 100 a b).map fin := by
    rw [construct_binb, getD_map_range _ f.dim i hi]
    unfold binRow
    rw [hbb, hmin, hmax]
    exact uniformRow_fin 100 (by norm_num) a b
  have hrow2 : (constructConfig f cfg).binb.getD i []
      = (qsU n a b).map fin := by
    rw [constructConfig_binb, getD_map_range _ f.dim i hi, hcfg,
        cToInt_natCast]
    unfold binRow
    rw [hbb, hmin, hmax]
    exact uniformRow_fin n hn a b
  refine ⟨⟨hrow1, ?_⟩, hrow2, ?_⟩
  · rw [hrow1, List.length_map, qsU_length]
  · rw [hrow2, List.length_map, qsU_length]

/-- Witness for C4: the integrand over `[0,1]` with no natural binning
gets the 101-boundary uniform table in default mode and the 3-boundary
uniform table with the options bundle carrying `numBins = 2`. -/
theorem C4_witness :
    ((construct wF1).binb.getD 0 [] = (qsU 100 0 1).map fin
      ∧ ((construct wF1).binb.getD 0 []).length = 100 + 1)
    ∧ ((constructConfig wF1 ⟨2⟩).binb.getD 0 [] = (qsU 2 0 1).map fin
      ∧ ((constructConfig wF1 ⟨2⟩).binb.getD 0 []).length = 2 + 1) :=
  C4_uniform_fallback wF1 ⟨2⟩ 0 2 0 1 (by decide) rfl rfl rfl
    (by decide) (by norm_num)

theorem setLimits_of_auth (f : RooAbsFunc) (st : IntegratorState)
    (a b : RDouble) (h : st.useIntegrandLimits = true) :
    setLimits a b f st = (st, false) := by
  unfold setLimits
  rw [h]
  simp

theorem setLimits_of_ext (f : RooAbsFunc) (st : IntegratorState)
    (a b : RDouble) (h : st.useIntegrandLimits = false) :
    setLimits a b f st
      = checkLimits f { st with xmin := st.xmin.set 0 a,
                                xmax := st.xmax.set 0 b } := by
  unfold setLimits
  rw [h]
  simp

theorem checkLimits_fst_of_auth (f : RooAbsFunc) (st : IntegratorState)
    (h : st.useIntegrandLimits = true) :
    (checkLimits f st).1
      = { st with
          xmin := (List.range f.dim).map (fun i => f.minLimit i),
          xmax := (List.range f.dim).map (fun i => f.maxLimit i) } := by
  unfold checkLimits
  simp [h]

theorem checkLimits_snd (f : RooAbsFunc) (st : IntegratorState) :
    (checkLimits f st).2 = (List.range f.dim).all (fun i =>
      !(vle ((checkLimits f st).1.xmax.getD i (fin 0))
            ((checkLimits f st).1.xmin.getD i (fin 0)))
      && !(isInfinite ((checkLimits f st).1.xmin.getD i (fin 0))
            || isInfinite ((checkLimits f st).1.xmax.getD i (fin 0)))) :=
  rfl

theorem range_all_false_iff (n : ℕ) (p : ℕ → Bool) :
    ((List.range n).all p = false) ↔ ∃ i, i < n ∧ p i = false := by
  constructor
  · intro h
    by_contra hc
    push_neg at hc
    have hall : (List.range n).all p = true := by
      rw [List.all_eq_true]
      intro x hx
      cases hpx : p x with
      | true => rfl
      | false => exact absurd hpx (hc x (List.mem_range.mp hx))
    rw [hall] at h
    cases h
  · rintro ⟨i, hi, hp⟩
    cases hall : (List.range n).all p with
    | false => rfl
    | true =>
        rw [List.all_eq_true] at hall
        have := hall i (List.mem_range.mpr hi)
        rw [hp] at this
        cases this

theorem cond_false_iff (A B C : Bool) :
    ((!A) && !(B || C)) = false ↔ (A = true ∨ B = true ∨ C = true) := by
  cases A <;> cases B <;> cases C <;> simp

/-- Claim C5: `checkLimits` returns false exactly when some dimension has
`max ≤ min` (IEEE comparison) or a non-finite bound; and with
integrand-authoritative limits it first overwrites every dimension's
stored bounds with the integrand's current limits before testing. -/
theorem C5_checkLimits_spec (f : RooAbsFunc) (st : IntegratorState) :
    ((checkLimits f st).2 = false ↔ ∃ i, i < f.dim ∧
       (vle ((checkLimits f st).1.xmax.getD i (fin 0))
            ((checkLimits f st).1.xmin.getD i (fin 0)) = true
        ∨ isInfinite ((checkLimits f st).1.xmin.getD i (fin 0)) = true
        ∨ isInfinite ((checkLimits f st).1.xmax.getD i (fin 0)) = true))
    ∧ (st.useIntegrandLimits = true →
        (checkLimits f st).1.xmin
          = (List.range f.dim).map (fun i => f.minLimit i)
        ∧ (checkLimits f st).1.xmax
          = (List.range f.dim).map (fun i => f.maxLimit i)) := by
  constructor
  · rw [checkLimits_snd f st, range_all_false_iff]
    exact exists_congr (fun i =>
      and_congr_right (fun _ => cond_false_iff _ _ _))
  · intro h
    rw [checkLimits_fst_of_auth f st h]
    exact ⟨rfl, rfl⟩

/-- Witness for C5: a state with inverted stored bounds (`min = 1`,
`max = 0`) fails validation. -/
theorem C5_witness : (checkLimits wF1 stBad).2 = false :=
  (C5_checkLimits_spec wF1 stBad).1.mpr ⟨0, by decide, Or.inl (by decide)⟩

/-- Claim C6: `setLimits` on an integrand-authoritative integrator is
refused with no state change; on one built for externally supplied
limits it overwrites dimension 0's stored bounds with the new values and
returns the result of re-running `checkLimits`. -/
theorem C6_setLimits_spec (f : RooAbsFunc) (st : IntegratorState)
    (a b : RDouble) (h0 : 0 < st.xmin.length) (h0x : 0 < st.xmax.length) :
    (st.useIntegrandLimits = true → setLimits a b f st = (st, false))
    ∧ (st.useIntegrandLimits = false →
        (setLimits a b f st).1
          = { st with xmin := st.xmin.set 0 a, xmax := st.xmax.set 0 b }
        ∧ (setLimits a b f st).1.xmin.getD 0 (fin 0) = a
        ∧ (setLimits a b f st).1.xmax.getD 0 (fin 0) = b
        ∧ (setLimits a b f st).2
            = (checkLimits f { st with xmin := st.xmin.set 0 a,
                                       xmax := st.xmax.set 0 b }).2) := by
  constructor
  · exact setLimits_of_auth f st a b
  · intro h
    have h1 : setLimits a b f st
        = checkLimits f { st with xmin := st.xmin.set 0 a,
                                  xmax := st.xmax.set 0 b } :=
      setLimits_of_ext f st a b h
    have h2 : (setLimits a b f st).1
        = { st with xmin := st.xmin.set 0 a, xmax := st.xmax.set 0 b } := by
      rw [h1, checkLimits_fst_of_ext f
        { st with xmin := st.xmin.set 0 a, xmax := st.xmax.set 0 b } h]
    refine ⟨h2, ?_, ?_, by rw [h1]⟩
    · rw [h2]
      show (st.xmin.set 0 a).getD 0 (fin 0) = a
      cases hx : st.xmin with
      | nil => rw [hx] at h0; cases h0
      | cons y ys => rfl
    · rw [h2]
      show (st.xmax.set 0 b).getD 0 (fin 0) = b
      cases hx : st.xmax with
      | nil => rw [hx] at h0x; cases h0x
      | cons y ys => rfl

/-- Witness for C6 on a state with externally supplied limits: the new
bounds `[2,5]` are stored in dimension 0 and re-validation succeeds. -/
theorem C6_witness :
    (setLimits (fin 2) (fin 5) wF1 stExt).1
      = { stExt with xmin := stExt.xmin.set 0 (fin 2),
                     xmax := stExt.xmax.set 0 (fin 5) }
    ∧ (setLimits (fin 2) (fin 5) wF1 stExt).1.xmin.getD 0 (fin 0) = fin 2
    ∧ (setLimits (fin 2) (fin 5) wF1 stExt).2 = true := by
  have h := (C6_setLimits_spec wF1 stExt (fin 2) (fin 5)
    (by decide) (by decide)).2 rfl
  refine ⟨h.1, h.2.1, ?_⟩
  rw [h.2.2.2]
  decide

/-- Counterexample to C7 as stated: an integrand whose `binBoundaries`
result is present but empty gets no uniform fallback — the bin-table row
for that dimension is left empty, not replaced by the synthesized
uniform binning. -/
theorem C7_counterexample :
    (construct wFempty).binb.getD 0 [] = []
    ∧ (construct wFempty).binb.getD 0 [] ≠ (qsU 100 0 1).map fin := by
  have h : (construct wFempty).binb.getD 0 [] = [] := by
    rw [construct_binb]
    rfl
  refine ⟨h, ?_⟩
  rw [h]
  intro hc
  have hlen := congrArg List.length hc
  rw [List.length_nil, List.length_map, qsU_length] at hlen
  cases hlen

/-- Amended C7: construction falls back to the synthesized uniform
binning exactly when `binBoundaries(i)` is absent (a null result); a
present boundary sequence — even an empty one — is copied verbatim as
that dimension's bin-table row. -/
theorem C7_amended_fallback (f : RooAbsFunc) (i : ℕ) (hi : i < f.dim) :
    (f.binBoundaries i = none →
      (construct f).binb.getD i []
        = uniformRow 100 (f.minLimit i) (f.maxLimit i))
    ∧ (∀ bs, f.binBoundaries i = some bs →
        (construct f).binb.getD i [] = bs) := by
  constructor
  · intro h
    rw [construct_binb, getD_map_range _ f.dim i hi]
    unfold binRow
    rw [h]
  · intro bs h
    rw [construct_binb, getD_map_range _ f.dim i hi]
    unfold binRow
    rw [h]

/-- Witness for the amended C7: the empty-but-present boundary list is
stored as an empty row. -/
theorem C7_amended_witness : (construct wFempty).binb.getD 0 [] = [] :=
  (C7_amended_fallback wFempty 0 (by decide)).2 [] rfl

/-- Claim C8: for a constant integrand `c` over valid finite per-dimension
domains `[a i, b i]`, with any bin count `n ≥ 1` in the options bundle,
`integral` is exactly `c` times the domain hypervolume, in 1D, 2D and
3D. -/
theorem C8_constant_exact (f : RooAbsFunc) (cfg : NumIntConfig) (n : ℕ)
    (a b : ℕ → ℚ) (c : ℚ)
    (hn : 1 ≤ n) (hcfg : cfg.numBins = (n : ℚ))
    (hmin : ∀ i, f.minLimit i = fin (a i))
    (hmax : ∀ i, f.maxLimit i = fin (b i))
    (hab : ∀ i, i < f.dim → a i < b i)
    (hbb : ∀ i, f.binBoundaries i = none)
    (he : ∀ xs : List RDouble, f.eval xs = fin c) :
    (f.dim = 1 →
      integral f (constructConfig f cfg) = fin (c * (b 0 - a 0)))
    ∧ (f.dim = 2 → integral f (constructConfig f cfg)
        = fin (c * ((b 0 - a 0) * (b 1 - a 1))))
    ∧ (f.dim = 3 → integral f (constructConfig f cfg)
        = fin (c * ((b 0 - a 0) * ((b 1 - a 1) * (b 2 - a 2))))) := by
  have hrow : ∀ i, i < f.dim →
      (constructConfig f cfg).binb.getD i []
        = (qsU n (a i) (b i)).map fin := by
    intro i hi
    rw [constructConfig_binb, getD_map_range _ f.dim i hi, hcfg,
        cToInt_natCast]
    unfold binRow
    rw [hbb i, hmin i, hmax i]
    exact uniformRow_fin n hn (a i) (b i)
  have hQ : ∀ i : ℕ,
      (qsU n (a i) (b i)).getD ((qsU n (a i) (b i)).length - 1) 0
        - (qsU n (a i) (b i)).getD 0 0 = b i - a i := by
    intro i
    rw [qsU_length, Nat.add_sub_cancel, qsU_last n hn, qsU_first]
  refine ⟨fun h1 => ?_, fun h2 => ?_, fun h3 => ?_⟩
  · rw [integral_dim1 f _ h1, hrow 0 (by omega)]
    rw [binSum1_fin f _ (fun _ => c) (fun x => he [fin x]) 0, zero_add]
    rw [specSum1_const, hQ 0]
  · rw [integral_dim2 f _ h2, hrow 0 (by omega), hrow 1 (by omega)]
    rw [binSum2_fin f _ _ (fun _ _ => c)
        (fun x y => he [fin x, fin y]) 0, zero_add]
    rw [specSum2_const, hQ 0, hQ 1]
  · rw [integral_dim3 f _ h3, hrow 0 (by omega), hrow 1 (by omega),
        hrow 2 (by omega)]
    rw [binSum3_fin f _ _ _ (fun _ _ _ => c)
        (fun x y z => he [fin x, fin y, fin z]) 0, zero_add]
    rw [specSum3_const, hQ 0, hQ 1, hQ 2]

/-- Witness for C8: the constant-2 integrand over `[0,1]` with 2 bins
integrates to exactly 2. -/
theorem C8_witness : integral wF1c (constructConfig wF1c ⟨2⟩) = fin 2 := by
  have h := (C8_constant_exact wF1c ⟨2⟩ 2 (fun _ => 0) (fun _ => 1) 2
    (by decide) (by norm_num) (fun _ => rfl) (fun _ => rfl)
    (fun i _ => by norm_num) (fun _ => rfl) (fun _ => rfl)).1 rfl
  rw [h]
  norm_num

/-- Claim C9: nothing modifies the bin-boundary table after construction:
`checkLimits` and `setLimits` leave every row of `_binb` unchanged,
`integral` reads only the bin table, and a successful `setLimits`
changes only the stored dimension-0 bounds, so `integral` returns the
same value before and after it. -/
theorem C9_frame (f : RooAbsFunc) (st : IntegratorState) (a b : RDouble) :
    (checkLimits f st).1.binb = st.binb
    ∧ (setLimits a b f st).1.binb = st.binb
    ∧ (∀ st2 : IntegratorState, st2.binb = st.binb →
        integral f st2 = integral f st)
    ∧ ((setLimits a b f st).2 = true →
        (setLimits a b f st).1
          = { st with xmin := st.xmin.set 0 a, xmax := st.xmax.set 0 b }
        ∧ integral f (setLimits a b f st).1 = integral f st) := by
  have hread : ∀ st2 : IntegratorState, st2.binb = st.binb →
      integral f st2 = integral f st := by
    intro st2 h
    unfold integral
    rw [h]
  refine ⟨checkLimits_fst_binb f st, ?_, hread, ?_⟩
  · cases hb : st.useIntegrandLimits with
    | true => rw [setLimits_of_auth f st a b hb]
    | false => rw [setLimits_of_ext f st a b hb, checkLimits_fst_binb]
  · intro hsucc
    cases hb : st.useIntegrandLimits with
    | true =>
        rw [setLimits_of_auth f st a b hb] at hsucc
        cases hsucc
    | false =>
        have h1 : (setLimits a b f st).1
            = { st with xmin := st.xmin.set 0 a,
                        xmax := st.xmax.set 0 b } := by
          rw [setLimits_of_ext f st a b hb, checkLimits_fst_of_ext f
            { st with xmin := st.xmin.set 0 a, xmax := st.xmax.set 0 b } hb]
        rw [hb] at h1
        exact ⟨h1, hread _ (by simp [h1])⟩

/-- Witness for C9 on concrete inputs: the bin table survives
`checkLimits` and a successful `setLimits`, and `integral` is
unchanged. -/
theorem C9_witness :
    (checkLimits wF1 stExt).1.binb = stExt.binb
    ∧ (setLimits (fin 2) (fin 5) wF1 stExt).1.binb = stExt.binb
    ∧ integral wF1 ((setLimits (fin 2) (fin 5) wF1 stExt).1)
        = integral wF1 stExt := by
  have h := C9_frame wF1 stExt (fin 2) (fin 5)
  exact ⟨h.1, h.2.1, (h.2.2.2 (by decide)).2⟩

/-- Claim C10: the default-mode constructor and the configured-mode
constructor whose `numBins` option is 100 build observationally
identical integrators: identical stored limits and bin table (the whole
state is equal) and the same `integral` value. -/
theorem C10_constructors_agree (f : RooAbsFunc) (cfg : NumIntConfig)
    (hcfg : cfg.numBins = (100 : ℚ)) :
    constructConfig f cfg = construct f
    ∧ integral f (constructConfig f cfg) = integral f (construct f) := by
  have h : cToInt cfg.numBins = (100 : ℤ) := by
    rw [hcfg]
    norm_num [cToInt]
  have hs : constructConfig f cfg = construct f := by
    unfold constructConfig construct
    rw [h]
  exact ⟨hs, by rw [hs]⟩

/-- Witness for C10 at a concrete integrand and the options bundle
carrying `numBins = 100`. -/
theorem C10_witness :
    constructConfig wF1 ⟨100⟩ = construct wF1
    ∧ integral wF1 (constructConfig wF1 ⟨100⟩)
        = integral wF1 (construct wF1) :=
  C10_constructors_agree wF1 ⟨100⟩ rfl

end RooBin
